import Mathlib

/-!
Verification development for the eplanningScraper repository.

The definitions below are a shallow embedding of the scraper's core logic:

* `scrape.mjs` — URL normalization inside `downloadFile` (lines 119-154),
  stage-3 binary payload validation (lines 261-279), the persistence phase
  of `downloadFile` (lines 283-311), `getFilenameFromUrl` (lines 323-348),
  `downloadAllDocuments` (lines 350-391) and the table-row extraction in
  `acceptDisclaimerAndGetDocs` (lines 453-486).
* `s3-uploader.mjs` — `S3Uploader.upload`, `getS3Url`, `getPublicUrl`,
  `isEnabled`, `shouldKeepLocalFiles`, and the `UploadStatistics` record.

Strings are modelled as `List Char` where character-level processing
matters (regex replacement, prefix tests), and as `String` where only
concatenation occurs.  Filesystem and network effects are modelled by
explicit state passing: the filesystem is a record of existing directories
and written files, a remote upload attempt's outcome is an explicit
boolean input, and thrown JavaScript errors become `Except` values.
-/

/-- Model of the JavaScript whitespace class used by both `trim()` and the
regex class `\s` (space, tab, newline, carriage return, vertical tab,
form feed). -/
def jsIsWs (c : Char) : Bool :=
  c = ' ' || c = '\t' || c = '\n' || c = '\r' || c = '\x0b' || c = '\x0c'

/-- Model of JavaScript `String.prototype.trim()`: drop whitespace from
both ends. -/
def jsTrim (l : List Char) : List Char :=
  ((l.dropWhile jsIsWs).reverse.dropWhile jsIsWs).reverse

/-- The character class `[<>:"/\\|?*]` of `scrape.mjs` line 333. -/
def invalidFilenameChar (c : Char) : Bool :=
  c = '<' || c = '>' || c = ':' || c = '\"' || c = '/' || c = '\\' ||
  c = '|' || c = '?' || c = '*'

/-- Model of `.replace(/[<>:"/\\|?*]/g, '_')` (`scrape.mjs` line 333). -/
def replaceInvalid (l : List Char) : List Char :=
  l.map fun c => if invalidFilenameChar c then '_' else c

/-- Model of `.replace(/\s+/g, '_')` (`scrape.mjs` line 334): each maximal
run of whitespace becomes a single underscore.  The boolean flag records
whether the previous character was inside a whitespace run. -/
def collapseWsAux : Bool → List Char → List Char
  | _, [] => []
  | inRun, c :: rest =>
    if jsIsWs c then
      if inRun then collapseWsAux true rest
      else '_' :: collapseWsAux true rest
    else c :: collapseWsAux false rest

/-- Entry point of the `\s+` replacement: no run is open initially. -/
def collapseWs (l : List Char) : List Char :=
  collapseWsAux false l

/-- Model of JavaScript `String.prototype.includes`: does `needle` occur
as a contiguous substring of the second argument? -/
def containsSub (needle : List Char) : List Char → Bool
  | [] => needle.isEmpty
  | c :: rest => needle.isPrefixOf (c :: rest) || containsSub needle rest

/-- The fixed portal base URL of `scrape.mjs` line 87. -/
def BASE_URL : String := "https://idocswebdpss.meathcoco.ie/iDocsWebDPSS"

/-- One attempt of the regex `/docid=(\d+)/` at the current position:
the literal `docid=` followed by at least one digit; the capture group is
the maximal run of digits. -/
def tryMatchDocidHere (l : List Char) : Option (List Char) :=
  if "docid=".data.isPrefixOf l then
    let ds := (l.drop 6).takeWhile Char.isDigit
    if ds.isEmpty then none else some ds
  else none

/-- Model of `url.match(/docid=(\d+)/)` (`scrape.mjs` line 325): scan left
to right and return the first capture, or `none` when the pattern never
matches. -/
def matchDocid : List Char → Option (List Char)
  | [] => none
  | c :: rest =>
    match tryMatchDocidHere (c :: rest) with
    | some ds => some ds
    | none => matchDocid rest

/-- The title-cleaning chain of `scrape.mjs` lines 332-335:
`docTitle.trim().replace(/[<>:"/\\|?*]/g,'_').replace(/\s+/g,'_').substring(0,100)`. -/
def cleanTitle (t : List Char) : List Char :=
  (collapseWs (replaceInvalid (jsTrim t))).take 100

/-- Model of `getFilenameFromUrl(url, docTitle)` (`scrape.mjs` lines
323-348).  The timestamp `Date.now()` and the random suffix of the final
fallback are explicit inputs `ts` and `rnd`. -/
def getFilenameFromUrl (url docTitle ts rnd : List Char) : List Char :=
  match matchDocid url with
  | some docid =>
    if docTitle.isEmpty || (jsTrim docTitle).isEmpty then
      "document_".data ++ docid ++ ".pdf".data
    else
      docid ++ '_' :: (cleanTitle docTitle ++ ".pdf".data)
  | none => "document_".data ++ ts ++ '_' :: (rnd ++ ".pdf".data)

/-- Modelled from the spec (claim C4 wording): cleaning that replaces each
character in the invalid class and each run of whitespace with
underscores and truncates to 100 characters — with NO trimming step.
This is the cleaning exactly as the claim words it. -/
def specCleanNoTrim (t : List Char) : List Char :=
  (collapseWs (replaceInvalid t)).take 100

/-- Helper for the termination of `specCollapseRuns`. -/
theorem dropWhile_length_le (p : Char → Bool) (l : List Char) :
    (l.dropWhile p).length ≤ l.length := by
  induction l with
  | nil => simp
  | cons c rest ih =>
    by_cases h : p c
    · simp only [List.dropWhile_cons, h, if_true]
      exact Nat.le_trans ih (Nat.le_succ _)
    · simp [List.dropWhile_cons, h]

/-- Spec-worded formulation of the whitespace-run replacement: the head of
a run becomes one underscore and the rest of the run is skipped. -/
def specCollapseRuns : List Char → List Char
  | [] => []
  | c :: rest =>
    if jsIsWs c then '_' :: specCollapseRuns (rest.dropWhile jsIsWs)
    else c :: specCollapseRuns rest
termination_by l => l.length
decreasing_by
  · simp only [List.length_cons]
    exact Nat.lt_succ_of_le (dropWhile_length_le jsIsWs rest)
  · simp

/-- The two formulations of the `\s+` replacement agree: the flag-based
implementation model equals the run-based spec formulation.  The `true`
flag corresponds to having already consumed the head of a run. -/
theorem collapseWsAux_eq_specCollapseRuns (l : List Char) :
    collapseWsAux false l = specCollapseRuns l ∧
    collapseWsAux true l = specCollapseRuns (l.dropWhile jsIsWs) := by
  induction l with
  | nil => simp [collapseWsAux, specCollapseRuns]
  | cons c rest ih =>
    by_cases h : jsIsWs c
    · constructor
      · rw [specCollapseRuns]
        simp [collapseWsAux, h, ih.2]
      · simp [collapseWsAux, h, ih.2, List.dropWhile_cons]
    · constructor
      · rw [specCollapseRuns]
        simp [collapseWsAux, h, ih.1]
      · rw [List.dropWhile_cons, if_neg (by simp [h]), specCollapseRuns]
        simp [collapseWsAux, h, ih.1]

/-- URL normalization for an iframe `src` / anchor `href` found on the
ViewFiles page (`scrape.mjs` lines 123-131): strip a leading `.\` (regex
`/^\.\\/`), then a leading `./` (regex `/^\.\//`). -/
def stripLeadingDotSlashes (src : List Char) : List Char :=
  let s1 := if ".\\".data.isPrefixOf src then src.drop 2 else src
  if "./".data.isPrefixOf s1 then s1.drop 2 else s1

/-- The relative-to-absolute URL computation of `scrape.mjs` lines
123-131: known relative shapes are cleaned and appended to the base URL,
other non-`http` values are appended verbatim, absolute URLs pass
through. -/
def toAbsolutePdfUrl (src : List Char) : List Char :=
  if ".\\files\\".data.isPrefixOf src || "./files/".data.isPrefixOf src then
    BASE_URL.data ++ '/' :: stripLeadingDotSlashes src
  else if ("http".data.isPrefixOf src) = false then
    BASE_URL.data ++ '/' :: src
  else src

/-- Outcome of the stage-3 binary validation of `scrape.mjs` lines
261-279. -/
inductive Stage3Outcome where
  | rejectedHtml
  | nonStandardProceed
  | standardProceed
deriving DecidableEq

/-- The HTML test of `scrape.mjs` line 269:
`firstBytes.includes('<!DOCTYPE') || firstBytes.includes('<html')`. -/
def htmlMarkerPresent (firstBytes : List Char) : Bool :=
  containsSub "<!DOCTYPE".data firstBytes || containsSub "<html".data firstBytes

/-- Stage-3 binary validation (`scrape.mjs` lines 261-279).  `firstBytes`
is `responseData.slice(0, 10).toString()`.  The declared content type is
only logged by the source, never consulted, hence the unused first
parameter.  The second component lists the payloads persisted as debug
artifacts: the offending bytes on HTML rejection, a diagnostic copy on a
missing `%PDF-` signature. -/
def validateBinaryPayload (_contentType : String) (payload : List Char) :
    Stage3Outcome × List (List Char) :=
  let firstBytes := payload.take 10
  if htmlMarkerPresent firstBytes then
    (Stage3Outcome.rejectedHtml, [payload])
  else if ("%PDF-".data.isPrefixOf firstBytes) = false then
    (Stage3Outcome.nonStandardProceed, [payload])
  else (Stage3Outcome.standardProceed, [])

/-- The run-wide storage mode selected on the command line
(`scrape.mjs` lines 25-32, validated at lines 59-64). -/
inductive StorageMode where
  | localMode
  | s3Mode
  | bothMode
deriving DecidableEq

/-- The process-lifetime upload statistics of `s3-uploader.mjs`
(`this.stats = { uploaded: 0, failed: 0, totalBytes: 0 }`). -/
structure UploadStats where
  uploaded : Nat
  failed : Nat
  totalBytes : Nat
deriving DecidableEq

namespace S3Uploader

/-- `S3_ENABLED` as derived from the storage mode (`scrape.mjs` lines
67-73): `true` exactly for `s3` and `both`. -/
def isEnabled : StorageMode → Bool
  | StorageMode.localMode => false
  | StorageMode.s3Mode => true
  | StorageMode.bothMode => true

/-- `KEEP_LOCAL_FILES` as derived from the storage mode (`scrape.mjs`
lines 67-73): `false` only for pure `s3` mode. -/
def shouldKeepLocalFiles : StorageMode → Bool
  | StorageMode.localMode => true
  | StorageMode.s3Mode => false
  | StorageMode.bothMode => true

/-- Model of `S3Uploader.upload` (`s3-uploader.mjs` lines 56-95).  The
guard `if (!this.enabled || !this.client) return null` yields `.ok none`.
Otherwise the network outcome of `upload.done()` is the explicit input
`attemptOk`: on success the `uploaded` counter is incremented and the
buffer length added to `totalBytes`, on failure the `failed` counter is
incremented and the error re-thrown (`.error`). -/
def upload (enabled hasClient : Bool) (stats : UploadStats) (bufLen : Nat)
    (attemptOk : Bool) : UploadStats × Except Unit (Option Unit) :=
  if enabled = false || hasClient = false then (stats, Except.ok none)
  else if attemptOk then
    ({ stats with
        uploaded := stats.uploaded + 1
        totalBytes := stats.totalBytes + bufLen },
      Except.ok (some ()))
  else ({ stats with failed := stats.failed + 1 }, Except.error ())

/-- The remote sink configuration (`s3-uploader.mjs` constructor): the
source field `prefix` is called `s3Prefix` here because `prefix` is a
reserved word in Lean. -/
structure S3Config where
  enabled : Bool
  bucket : String
  region : String
  s3Prefix : String

/-- Model of `S3Uploader.getS3Url` (`s3-uploader.mjs` lines 126-133). -/
def getS3Url (cfg : S3Config) (filename applicationId : String) :
    Option String :=
  if cfg.enabled = false then none
  else
    some ("s3://" ++ cfg.bucket ++ "/" ++
      (cfg.s3Prefix ++ "/" ++ applicationId ++ "/" ++ filename))

/-- Model of `S3Uploader.getPublicUrl` (`s3-uploader.mjs` lines 141-148). -/
def getPublicUrl (cfg : S3Config) (filename applicationId : String) :
    Option String :=
  if cfg.enabled = false then none
  else
    some ("https://" ++ cfg.bucket ++ ".s3." ++ cfg.region ++
      ".amazonaws.com/" ++
      (cfg.s3Prefix ++ "/" ++ applicationId ++ "/" ++ filename))

end S3Uploader
/-- The part of the filesystem the persistence phase touches: the set of
existing directories and the written files (path paired with byte
length). -/
structure FileSystem where
  dirs : List String
  files : List (String × Nat)
deriving DecidableEq

/-- `fs.existsSync` restricted to directories. -/
def existsSyncDir (fs : FileSystem) (d : String) : Bool :=
  fs.dirs.contains d

/-- `fs.mkdirSync`. -/
def mkdirSync (fs : FileSystem) (d : String) : FileSystem :=
  { fs with dirs := fs.dirs ++ [d] }

/-- `fs.writeFileSync(path.join(dir, file), data)`: Node does not create
missing parent directories, so the write throws `ENOENT` when `dir` does
not exist. -/
def writeFileSync (fs : FileSystem) (dir file : String) (len : Nat) :
    Except String FileSystem :=
  if fs.dirs.contains dir then
    Except.ok { fs with files := fs.files ++ [(dir ++ "/" ++ file, len)] }
  else Except.error "ENOENT"

/-- Startup folder creation (`scrape.mjs` lines 89-96): the downloads
folder is created only when local files are kept or S3 is disabled. -/
def createDownloadsFolder (mode : StorageMode) (fs : FileSystem)
    (folder : String) : FileSystem :=
  if S3Uploader.shouldKeepLocalFiles mode || S3Uploader.isEnabled mode = false then
    if existsSyncDir fs folder then fs else mkdirSync fs folder
  else fs

/-- The persistence phase of `downloadFile` (`scrape.mjs` lines 283-311)
for one already-validated payload of length `len`.  When S3 is enabled
the upload is attempted and a thrown upload error is caught (`s3Result`
stays null); then the local write runs when local files are kept, S3 is
disabled, or the upload did not produce a result.  A thrown local-write
error propagates out of `downloadFile`, making the whole document fail
(`false` in the third component). -/
def persistDocument (mode : StorageMode) (folder filename : String)
    (len : Nat) (remoteOk : Bool) (fs : FileSystem) (stats : UploadStats) :
    FileSystem × UploadStats × Bool :=
  let attempted :=
    if S3Uploader.isEnabled mode then
      S3Uploader.upload true true stats len remoteOk
    else (stats, Except.ok none)
  let stats1 := attempted.1
  let s3Result : Bool :=
    match attempted.2 with
    | Except.ok r => r.isSome
    | Except.error _ => false
  if S3Uploader.shouldKeepLocalFiles mode ||
      (S3Uploader.isEnabled mode = false || s3Result = false) then
    match writeFileSync fs folder filename len with
    | Except.ok fs2 => (fs2, stats1, true)
    | Except.error _ => (fs, stats1, false)
  else (fs, stats1, true)

/-- Aggregated result of a persistence batch: final filesystem, final
sink statistics, and the orchestrator's success/failure counters. -/
structure RunOutcome where
  fs : FileSystem
  stats : UploadStats
  successCount : Nat
  failCount : Nat
deriving DecidableEq

/-- The persistence part of the `downloadAllDocuments` loop (`scrape.mjs`
lines 361-376) over documents given as (filename, byte length, upload
outcome): each document failure is caught and counted, the loop
continues. -/
def runPersistBatch (mode : StorageMode) (folder : String) :
    List (String × Nat × Bool) → FileSystem → UploadStats → Nat → Nat →
    RunOutcome
  | [], fs, stats, s, f => ⟨fs, stats, s, f⟩
  | (name, len, remoteOk) :: rest, fs, stats, s, f =>
    let step := persistDocument mode folder name len remoteOk fs stats
    if step.2.2 then runPersistBatch mode folder rest step.1 step.2.1 (s + 1) f
    else runPersistBatch mode folder rest step.1 step.2.1 s (f + 1)

/-- A whole run's persistence behaviour starting from a fresh working
directory: startup folder creation followed by the document loop, with
counters and statistics starting at zero. -/
def scrapeRun (mode : StorageMode) (folder : String)
    (docs : List (String × Nat × Bool)) : RunOutcome :=
  runPersistBatch mode folder docs
    (createDownloadsFolder mode ⟨[], []⟩ folder) ⟨0, 0, 0⟩ 0 0

/-- A run in pure `s3` storage mode whose every remote upload fails
(an always-failing remote backend), on a fresh working directory. -/
def s3OnlyAllUploadsFailRun (folder : String) (docs : List (String × Nat)) :
    RunOutcome :=
  scrapeRun StorageMode.s3Mode folder (docs.map fun d => (d.1, d.2, false))

/-- Observable events of the `downloadAllDocuments` orchestrator
(`scrape.mjs` lines 350-391). -/
inductive RunEvent where
  | attempt (idx : Nat)
  | delayMs (ms : Nat)
  | summary (succ fail : Nat)
  | noDocsNotice
deriving DecidableEq

/-- Event trace plus the orchestrator's counters. -/
structure BatchState where
  events : List RunEvent
  succ : Nat
  fail : Nat
deriving DecidableEq

/-- The `for` loop of `downloadAllDocuments` (`scrape.mjs` lines
361-376), with each document's overall outcome (resolution plus
persistence) as a boolean: the download is attempted; on success the
success counter is incremented and the fixed 1000 ms politeness delay is
awaited; on failure the failure counter is incremented and the loop
proceeds directly to the next document. -/
def processLoop : Nat → List Bool → BatchState
  | _, [] => ⟨[], 0, 0⟩
  | i, ok :: rest =>
    let r := processLoop (i + 1) rest
    if ok then
      ⟨RunEvent.attempt i :: RunEvent.delayMs 1000 :: r.events,
        r.succ + 1, r.fail⟩
    else ⟨RunEvent.attempt i :: r.events, r.succ, r.fail + 1⟩

/-- Model of `downloadAllDocuments` (`scrape.mjs` lines 350-391): an
empty list returns early with only the no-documents notice; otherwise
the loop runs and the final summary with both counters is printed. -/
def downloadAllDocuments (outcomes : List Bool) : BatchState :=
  if outcomes.isEmpty then ⟨[RunEvent.noDocsNotice], 0, 0⟩
  else
    let r := processLoop 1 outcomes
    ⟨r.events ++ [RunEvent.summary r.succ r.fail], r.succ, r.fail⟩

/-- Number of politeness pauses in a trace. -/
def countDelays (evs : List RunEvent) : Nat :=
  evs.countP fun e =>
    match e with
    | RunEvent.delayMs _ => true
    | _ => false

/-- Whether a final summary was printed. -/
def hasSummary (evs : List RunEvent) : Bool :=
  evs.any fun e =>
    match e with
    | RunEvent.summary _ _ => true
    | _ => false

/-- One table row of the ViewFiles listing as seen by the extraction loop
of `acceptDisclaimerAndGetDocs` (`scrape.mjs` lines 457-486):
`viewFilesHref` is the `href` of the row's first
`a[href*="ViewFiles.aspx"]` anchor when one exists, and `cells` holds the
text of the row's `td` elements. -/
structure TableRow where
  viewFilesHref : Option String
  cells : List String
deriving DecidableEq

/-- The DocumentReference produced by the negotiator (`scrape.mjs` lines
479-483). -/
structure DocRef where
  url : String
  title : String
  docid : String
deriving DecidableEq

/-- Processing of one table row (`scrape.mjs` lines 458-485): rows
without a ViewFiles anchor or whose href has no `docid=(\d+)` match
produce nothing; otherwise the title is the trimmed text of the second
cell (empty when the row has fewer than two cells) and the reference URL
is the base URL joined with the href. -/
def mkDocRef (r : TableRow) : Option DocRef :=
  match r.viewFilesHref with
  | none => none
  | some href =>
    match matchDocid href.data with
    | none => none
    | some ds =>
      let docTitle :=
        if r.cells.length ≥ 2 then String.mk (jsTrim (r.cells.getD 1 "").data)
        else ""
      some { url := BASE_URL ++ "/" ++ href
             title := docTitle
             docid := String.mk ds }

/-- The whole `$files('tr').each` loop (`scrape.mjs` lines 457-486):
rows are visited in order and each successfully matched row appends one
reference. -/
def extractDocLinks (rows : List TableRow) : List DocRef :=
  rows.filterMap mkDocRef
/-- Characters surviving `collapseWsAux` are either the inserted
underscore or non-whitespace characters of the input. -/
theorem mem_collapseWsAux {c : Char} :
    ∀ {b : Bool} {l : List Char}, c ∈ collapseWsAux b l →
      c = '_' ∨ (c ∈ l ∧ jsIsWs c = false) := by
  intro b l
  induction l generalizing b with
  | nil => intro h; simp [collapseWsAux] at h
  | cons a rest ih =>
    intro h
    by_cases ha : jsIsWs a = true
    · cases b with
      | true =>
        rw [show collapseWsAux true (a :: rest) = collapseWsAux true rest by
          simp [collapseWsAux, ha]] at h
        rcases ih h with h1 | ⟨h2, h3⟩
        · exact Or.inl h1
        · exact Or.inr ⟨List.mem_cons_of_mem a h2, h3⟩
      | false =>
        rw [show collapseWsAux false (a :: rest) =
            '_' :: collapseWsAux true rest by simp [collapseWsAux, ha]] at h
        rcases List.mem_cons.mp h with h1 | h1
        · exact Or.inl h1
        · rcases ih h1 with h2 | ⟨h3, h4⟩
          · exact Or.inl h2
          · exact Or.inr ⟨List.mem_cons_of_mem a h3, h4⟩
    · have ha2 : jsIsWs a = false := by simpa using ha
      rw [show collapseWsAux b (a :: rest) = a :: collapseWsAux false rest by
        simp [collapseWsAux, ha2]] at h
      rcases List.mem_cons.mp h with h1 | h1
      · subst h1; exact Or.inr ⟨List.mem_cons_self c rest, ha2⟩
      · rcases ih h1 with h2 | ⟨h3, h4⟩
        · exact Or.inl h2
        · exact Or.inr ⟨List.mem_cons_of_mem a h3, h4⟩

/-- Every character of `replaceInvalid`'s output is outside the invalid
class. -/
theorem mem_replaceInvalid {c : Char} {l : List Char}
    (h : c ∈ replaceInvalid l) : invalidFilenameChar c = false := by
  simp only [replaceInvalid, List.mem_map] at h
  rcases h with ⟨a, -, ha⟩
  by_cases hi : invalidFilenameChar a = true
  · rw [if_pos hi] at ha; rw [← ha]; decide
  · rw [if_neg hi] at ha; rw [← ha]; simpa using hi

/-- The cleaned-title output is at most 100 characters long. -/
theorem cleanTitle_length_le (t : List Char) : (cleanTitle t).length ≤ 100 := by
  show ((collapseWs (replaceInvalid (jsTrim t))).take 100).length ≤ 100
  rw [List.length_take]
  exact min_le_left _ _

/-- Every character of a cleaned title is non-whitespace and outside the
invalid class. -/
theorem forall_mem_cleanTitle (t : List Char) :
    ∀ c ∈ cleanTitle t, jsIsWs c = false ∧ invalidFilenameChar c = false := by
  intro c hc
  have hc2 : c ∈ collapseWsAux false (replaceInvalid (jsTrim t)) :=
    List.mem_of_mem_take hc
  rcases mem_collapseWsAux hc2 with h | ⟨hmem, hws⟩
  · subst h; exact ⟨by decide, by decide⟩
  · exact ⟨hws, mem_replaceInvalid hmem⟩

/-- `dropWhile` is the identity when the predicate never holds. -/
theorem dropWhile_eq_self_of_false {p : Char → Bool} {l : List Char}
    (h : ∀ c ∈ l, p c = false) : l.dropWhile p = l := by
  cases l with
  | nil => rfl
  | cons a rest =>
    have := h a (List.mem_cons_self a rest)
    simp [List.dropWhile_cons, this]

/-- Trimming a string without whitespace is the identity. -/
theorem jsTrim_eq_self_of_no_ws {l : List Char}
    (h : ∀ c ∈ l, jsIsWs c = false) : jsTrim l = l := by
  show ((l.dropWhile jsIsWs).reverse.dropWhile jsIsWs).reverse = l
  rw [dropWhile_eq_self_of_false h]
  rw [dropWhile_eq_self_of_false (by
    intro c hc
    exact h c (List.mem_reverse.mp hc))]
  exact List.reverse_reverse l

/-- Replacing invalid characters is the identity when none are present. -/
theorem replaceInvalid_eq_self {l : List Char}
    (h : ∀ c ∈ l, invalidFilenameChar c = false) : replaceInvalid l = l := by
  induction l with
  | nil => rfl
  | cons a rest ih =>
    have ha := h a (List.mem_cons_self a rest)
    have htail := ih fun c hc => h c (List.mem_cons_of_mem a hc)
    simp only [replaceInvalid, List.map_cons] at htail ⊢
    rw [if_neg (by simp [ha]), htail]

/-- Collapsing whitespace runs is the identity on whitespace-free input,
whatever the run flag. -/
theorem collapseWsAux_eq_self {l : List Char}
    (h : ∀ c ∈ l, jsIsWs c = false) : ∀ b, collapseWsAux b l = l := by
  induction l with
  | nil => intro b; rfl
  | cons a rest ih =>
    intro b
    have ha := h a (List.mem_cons_self a rest)
    have htail := ih (fun c hc => h c (List.mem_cons_of_mem a hc)) false
    simp [collapseWsAux, ha, htail]

/-- Title cleaning is idempotent. -/
theorem cleanTitle_idem (t : List Char) :
    cleanTitle (cleanTitle t) = cleanTitle t := by
  have hmem := forall_mem_cleanTitle t
  have hws : ∀ c ∈ cleanTitle t, jsIsWs c = false :=
    fun c hc => (hmem c hc).1
  have hinv : ∀ c ∈ cleanTitle t, invalidFilenameChar c = false :=
    fun c hc => (hmem c hc).2
  show (collapseWs (replaceInvalid (jsTrim (cleanTitle t)))).take 100 =
    cleanTitle t
  rw [jsTrim_eq_self_of_no_ws hws, replaceInvalid_eq_self hinv]
  show (collapseWsAux false (cleanTitle t)).take 100 = cleanTitle t
  rw [collapseWsAux_eq_self hws false]
  exact List.take_of_length_le (cleanTitle_length_le t)

/-- Branch of `getFilenameFromUrl` for a docid-bearing URL and a title
that is non-empty after trimming. -/
theorem getFilename_docid_title {url d title : List Char} (ts rnd : List Char)
    (h : matchDocid url = some d) (ht : jsTrim title ≠ []) :
    getFilenameFromUrl url title ts rnd =
      d ++ '_' :: (cleanTitle title ++ ".pdf".data) := by
  have hne : title.isEmpty = false := by
    cases title with
    | nil => exact absurd rfl ht
    | cons a r => rfl
  have ht2 : (jsTrim title).isEmpty = false := by
    cases htr : jsTrim title with
    | nil => exact absurd htr ht
    | cons a r => rfl
  simp [getFilenameFromUrl, h, hne, ht2]

/-- Branch of `getFilenameFromUrl` for a docid-bearing URL and a missing
or whitespace-only title. -/
theorem getFilename_docid_no_title {url d : List Char} (title ts rnd : List Char)
    (h : matchDocid url = some d) (ht : jsTrim title = []) :
    getFilenameFromUrl url title ts rnd =
      "document_".data ++ d ++ ".pdf".data := by
  have ht2 : (jsTrim title).isEmpty = true := by simp [ht]
  simp [getFilenameFromUrl, h, ht2]

/-- Branch of `getFilenameFromUrl` when no docid can be extracted. -/
theorem getFilename_no_docid {url : List Char} (title ts rnd : List Char)
    (h : matchDocid url = none) :
    getFilenameFromUrl url title ts rnd =
      "document_".data ++ ts ++ '_' :: (rnd ++ ".pdf".data) := by
  simp [getFilenameFromUrl, h]

/-- Modelled from the spec (amended C4 wording): cleaning that first
trims the title, then replaces invalid characters and whitespace runs
with underscores (run-based formulation), then truncates to 100
characters. -/
def specCleanTrimmed (t : List Char) : List Char :=
  (specCollapseRuns (replaceInvalid (jsTrim t))).take 100

/-- The code's cleaning chain implements the amended spec cleaning. -/
theorem cleanTitle_eq_specCleanTrimmed (t : List Char) :
    cleanTitle t = specCleanTrimmed t := by
  show (collapseWsAux false (replaceInvalid (jsTrim t))).take 100 = _
  rw [(collapseWsAux_eq_specCollapseRuns _).1]
  rfl
/-- Claim C2: stage-3 binary validation.  A payload whose first bytes
(the 10-character decoded slice) contain an HTML doctype or `<html` tag
makes resolution fail with the HTML rejection, persisting the offending
bytes, independently of the declared content type; a payload without the
HTML markers that merely lacks the `%PDF-` signature proceeds as
non-standard with a diagnostic copy persisted. -/
theorem c2_stage3_binary_validation (ct ct2 : String) (payload : List Char) :
    (htmlMarkerPresent (payload.take 10) = true →
      validateBinaryPayload ct payload =
        (Stage3Outcome.rejectedHtml, [payload])) ∧
    (htmlMarkerPresent (payload.take 10) = false →
      ("%PDF-".data.isPrefixOf (payload.take 10)) = false →
      validateBinaryPayload ct payload =
        (Stage3Outcome.nonStandardProceed, [payload])) ∧
    validateBinaryPayload ct payload = validateBinaryPayload ct2 payload := by
  refine ⟨fun h => ?_, fun h1 h2 => ?_, rfl⟩
  · simp [validateBinaryPayload, h]
  · simp [validateBinaryPayload, h1, h2]

/-- Witness for C2: a server declaring `application/pdf` but returning an
HTML body is rejected, and a non-HTML payload without the `%PDF-`
signature proceeds with a diagnostic copy. -/
theorem c2_stage3_witness :
    validateBinaryPayload "application/pdf" "<html><body>login".data =
      (Stage3Outcome.rejectedHtml, ["<html><body>login".data]) ∧
    validateBinaryPayload "application/pdf" "JUNKDATA".data =
      (Stage3Outcome.nonStandardProceed, ["JUNKDATA".data]) :=
  ⟨(c2_stage3_binary_validation "application/pdf" "x"
      "<html><body>login".data).1 (by decide),
    (c2_stage3_binary_validation "application/pdf" "x"
      "JUNKDATA".data).2.1 (by decide) (by decide)⟩

/-- Counterexample to claim C3 as stated: for the iframe src
`.\files\doc1.pdf` the computed absolute URL is NOT
`{baseUrl}/files/doc1.pdf` — the code strips only the leading `.\` and
does not convert the interior backslash. -/
theorem c3_backslash_not_converted :
    toAbsolutePdfUrl ".\\files\\doc1.pdf".data ≠
      (BASE_URL ++ "/files/doc1.pdf").data := by decide

/-- Amended claim C3: for an iframe src of `.\files\doc1.pdf` the
computed absolute URL is `{baseUrl}/files\doc1.pdf` — the leading `.\`
is removed but the interior backslash separator is kept verbatim. -/
theorem c3_relative_path_normalization :
    toAbsolutePdfUrl ".\\files\\doc1.pdf".data =
      (BASE_URL ++ "/files\\doc1.pdf").data := by decide

/-- Counterexample to claim C4 as stated: the claim's cleaning (invalid
characters and whitespace runs to underscores, no trimming) disagrees
with the code on a title with leading whitespace — the code trims first,
the claim's formula would keep an underscore for it. -/
theorem c4_cleaning_needs_trim :
    getFilenameFromUrl "x?docid=1".data " a".data [] [] = "1_a.pdf".data ∧
    "1".data ++ '_' :: (specCleanNoTrim " a".data ++ ".pdf".data) =
      "1__a.pdf".data ∧
    "1_a.pdf".data ≠ "1__a.pdf".data := by decide

/-- Amended claim C4: for every docid-bearing URL, the derived filename
is `{docid}_{cleaned title}.pdf` where cleaning first trims the title
and then replaces each invalid character and each whitespace run with
underscores and truncates to 100 characters; with no meaningful title it
is `document_{docid}.pdf`; with no extractable docid it is
`document_{timestamp}_{random-suffix}.pdf`. -/
theorem c4_filename_derivation (url title ts rnd : List Char) :
    (∀ d, matchDocid url = some d → jsTrim title ≠ [] →
      getFilenameFromUrl url title ts rnd =
        d ++ '_' :: (specCleanTrimmed title ++ ".pdf".data)) ∧
    (∀ d, matchDocid url = some d → jsTrim title = [] →
      getFilenameFromUrl url title ts rnd =
        "document_".data ++ d ++ ".pdf".data) ∧
    (matchDocid url = none →
      getFilenameFromUrl url title ts rnd =
        "document_".data ++ ts ++ '_' :: (rnd ++ ".pdf".data)) := by
  refine ⟨fun d hd ht => ?_, fun d hd ht => ?_, fun h => ?_⟩
  · rw [getFilename_docid_title ts rnd hd ht, cleanTitle_eq_specCleanTrimmed]
  · exact getFilename_docid_no_title title ts rnd hd ht
  · exact getFilename_no_docid title ts rnd h

/-- Witness for C4 at a concrete docid-bearing URL and title. -/
theorem c4_filename_witness :
    getFilenameFromUrl "ViewFiles.aspx?docid=123".data "Site  Plan".data [] [] =
      "123".data ++ '_' ::
        (specCleanTrimmed "Site  Plan".data ++ ".pdf".data) :=
  (c4_filename_derivation "ViewFiles.aspx?docid=123".data "Site  Plan".data
    [] []).1 "123".data (by decide) (by decide)

/-- Counterexample to claim C5 as stated: the derived filename's length
is NOT always at most 100 characters plus the `.pdf` extension — the
docid and separator come on top of the 100-character cap on the cleaned
title, giving 106 characters here. -/
theorem c5_length_bound_fails :
    (getFilenameFromUrl "u?docid=1".data (List.replicate 101 'a') [] []).length
        = 106 ∧
    ¬ ((getFilenameFromUrl "u?docid=1".data
        (List.replicate 101 'a') [] []).length ≤ 100 + ".pdf".data.length) := by
  decide

/-- Amended claim C5: filename derivation is deterministic in
(docid, title) — any two docid-bearing URLs with the same extracted
docid and the same title give the same filename whatever the timestamp
and random inputs; title cleaning is idempotent; the cleaned-title
component is at most 100 characters; and the whole filename is at most
the docid's length plus 105 characters (separator, capped title and
extension). -/
theorem c5_filename_pure (url url2 title ts ts2 rnd rnd2 : List Char) :
    cleanTitle (cleanTitle title) = cleanTitle title ∧
    (cleanTitle title).length ≤ 100 ∧
    (∀ d, matchDocid url = some d → matchDocid url2 = some d →
      getFilenameFromUrl url title ts rnd =
        getFilenameFromUrl url2 title ts2 rnd2) ∧
    (∀ d, matchDocid url = some d →
      (getFilenameFromUrl url title ts rnd).length ≤ d.length + 105) := by
  refine ⟨cleanTitle_idem title, cleanTitle_length_le title,
    fun d hd hd2 => ?_, fun d hd => ?_⟩
  · by_cases ht : jsTrim title = []
    · rw [getFilename_docid_no_title title ts rnd hd ht,
        getFilename_docid_no_title title ts2 rnd2 hd2 ht]
    · rw [getFilename_docid_title ts rnd hd ht,
        getFilename_docid_title ts2 rnd2 hd2 ht]
  · by_cases ht : jsTrim title = []
    · rw [getFilename_docid_no_title title ts rnd hd ht]
      simp only [List.length_append, List.length_cons, List.length_nil]
      omega
    · rw [getFilename_docid_title ts rnd hd ht]
      have := cleanTitle_length_le title
      simp only [List.length_append, List.length_cons, List.length_nil]
      omega

/-- Witness for C5 at concrete URLs sharing the docid `7`. -/
theorem c5_filename_witness :
    getFilenameFromUrl "a?docid=7&x=1".data "Plan".data "t1".data "r1".data =
      getFilenameFromUrl "b?docid=7".data "Plan".data "t2".data "r2".data ∧
    (getFilenameFromUrl "a?docid=7&x=1".data "Plan".data "t1".data
        "r1".data).length ≤ "7".data.length + 105 :=
  ⟨(c5_filename_pure "a?docid=7&x=1".data "b?docid=7".data "Plan".data
      "t1".data "t2".data "r1".data "r2".data).2.2.1 "7".data
      (by decide) (by decide),
    (c5_filename_pure "a?docid=7&x=1".data "b?docid=7".data "Plan".data
      "t1".data "t2".data "r1".data "r2".data).2.2.2 "7".data (by decide)⟩
/-- Claim C9: upload statistics postcondition of `S3Uploader.upload` on
an enabled sink with an initialized client — a successful upload
increments `uploaded` by one and adds exactly the payload length to
`totalBytes` leaving `failed` unchanged, while a failed upload increments
`failed` by one, leaves `uploaded` and `totalBytes` unchanged, and
re-raises the error. -/
theorem c9_upload_statistics (stats : UploadStats) (len : Nat) :
    (S3Uploader.upload true true stats len true).1 =
      { uploaded := stats.uploaded + 1
        failed := stats.failed
        totalBytes := stats.totalBytes + len } ∧
    (S3Uploader.upload true true stats len true).2 = Except.ok (some ()) ∧
    (S3Uploader.upload true true stats len false).1 =
      { uploaded := stats.uploaded
        failed := stats.failed + 1
        totalBytes := stats.totalBytes } ∧
    (S3Uploader.upload true true stats len false).2 = Except.error () := by
  refine ⟨?_, rfl, ?_, rfl⟩ <;> simp [S3Uploader.upload]

/-- Claim C10: `getS3Url` and `getPublicUrl` return `null` when the
remote sink is disabled; when enabled they deterministically format the
`s3://{bucket}/{prefix}/{applicationId}/{filename}` and
`https://{bucket}.s3.{region}.amazonaws.com/{prefix}/{applicationId}/{filename}`
addresses.  Both are pure functions of the configuration in this
embedding, so they perform no I/O and touch no sink state. -/
theorem c10_address_formatting (cfg : S3Uploader.S3Config)
    (filename applicationId : String) :
    (cfg.enabled = false →
      S3Uploader.getS3Url cfg filename applicationId = none ∧
      S3Uploader.getPublicUrl cfg filename applicationId = none) ∧
    (cfg.enabled = true →
      S3Uploader.getS3Url cfg filename applicationId =
        some ("s3://" ++ cfg.bucket ++ "/" ++
          (cfg.s3Prefix ++ "/" ++ applicationId ++ "/" ++ filename)) ∧
      S3Uploader.getPublicUrl cfg filename applicationId =
        some ("https://" ++ cfg.bucket ++ ".s3." ++ cfg.region ++
          ".amazonaws.com/" ++
          (cfg.s3Prefix ++ "/" ++ applicationId ++ "/" ++ filename))) := by
  constructor
  · intro h
    constructor
    · simp [S3Uploader.getS3Url, h]
    · simp [S3Uploader.getPublicUrl, h]
  · intro h
    constructor
    · simp [S3Uploader.getS3Url, h]
    · simp [S3Uploader.getPublicUrl, h]

/-- Witness for C10 at a concrete disabled and a concrete enabled
configuration. -/
theorem c10_address_witness :
    S3Uploader.getS3Url ⟨false, "b", "r", "p"⟩ "f.pdf" "123" = none ∧
    S3Uploader.getS3Url ⟨true, "b", "r", "p"⟩ "f.pdf" "123" =
      some "s3://b/p/123/f.pdf" ∧
    S3Uploader.getPublicUrl ⟨true, "b", "r", "p"⟩ "f.pdf" "123" =
      some "https://b.s3.r.amazonaws.com/p/123/f.pdf" := by
  refine ⟨((c10_address_formatting ⟨false, "b", "r", "p"⟩ "f.pdf" "123").1
      rfl).1, ?_, ?_⟩
  · exact (((c10_address_formatting ⟨true, "b", "r", "p"⟩ "f.pdf" "123").2
      rfl).1).trans (by decide)
  · exact (((c10_address_formatting ⟨true, "b", "r", "p"⟩ "f.pdf" "123").2
      rfl).2).trans (by decide)

/-- In pure `s3` mode with a missing downloads folder, one document whose
upload fails is not written anywhere, the sink records the upload
failure, and the document counts as failed at the orchestrator. -/
theorem persistDocument_s3_fail_step (folder name : String) (len : Nat)
    (fs : FileSystem) (stats : UploadStats) (hdirs : fs.dirs = []) :
    persistDocument StorageMode.s3Mode folder name len false fs stats =
      (fs, { stats with failed := stats.failed + 1 }, false) := by
  simp [persistDocument, S3Uploader.upload, S3Uploader.isEnabled,
    S3Uploader.shouldKeepLocalFiles, writeFileSync, hdirs]

/-- Loop invariant for an always-failing remote backend in `s3` mode on a
filesystem with no directories: the filesystem never changes and every
document adds one sink failure and one orchestrator failure. -/
theorem runPersistBatch_s3_all_fail (folder : String)
    (docs : List (String × Nat)) :
    ∀ (fs : FileSystem) (stats : UploadStats) (s f : Nat), fs.dirs = [] →
      runPersistBatch StorageMode.s3Mode folder
          (docs.map fun d => (d.1, d.2, false)) fs stats s f =
        ⟨fs, { stats with failed := stats.failed + docs.length }, s,
          f + docs.length⟩ := by
  induction docs with
  | nil => intro fs stats s f h; simp [runPersistBatch]
  | cons d rest ih =>
    intro fs stats s f h
    obtain ⟨name, len⟩ := d
    rw [List.map_cons]
    show runPersistBatch StorageMode.s3Mode folder _ fs stats s f = _
    rw [runPersistBatch]
    rw [persistDocument_s3_fail_step folder name len fs stats h]
    rw [ih fs _ s (f + 1) h]
    simp [List.length_cons, RunOutcome.mk.injEq, UploadStats.mk.injEq]
    omega

/-- Claim C1 (demonstrating the divergence): for a run with storage mode
`s3` on a fresh working directory and a remote backend whose every
upload fails, NO document is written to local storage — the downloads
folder is never created in pure `s3` mode, so the local fallback write
throws `ENOENT` — while the sink's failed count does equal the number of
documents processed, and every document is counted as failed by the
orchestrator. -/
theorem c1_s3_fallback_loses_data (folder : String)
    (docs : List (String × Nat)) :
    (s3OnlyAllUploadsFailRun folder docs).fs.files = [] ∧
    (s3OnlyAllUploadsFailRun folder docs).stats.failed = docs.length ∧
    (s3OnlyAllUploadsFailRun folder docs).successCount = 0 ∧
    (s3OnlyAllUploadsFailRun folder docs).failCount = docs.length := by
  have hstart : createDownloadsFolder StorageMode.s3Mode ⟨[], []⟩ folder =
      ⟨[], []⟩ := by
    simp [createDownloadsFolder, S3Uploader.shouldKeepLocalFiles,
      S3Uploader.isEnabled]
  have h : s3OnlyAllUploadsFailRun folder docs =
      ⟨⟨[], []⟩, ⟨0, docs.length, 0⟩, 0, docs.length⟩ := by
    show runPersistBatch StorageMode.s3Mode folder
        (docs.map fun d => (d.1, d.2, false))
        (createDownloadsFolder StorageMode.s3Mode ⟨[], []⟩ folder)
        ⟨0, 0, 0⟩ 0 0 = _
    rw [hstart]
    rw [runPersistBatch_s3_all_fail folder docs ⟨[], []⟩ ⟨0, 0, 0⟩ 0 0 rfl]
    simp
  rw [h]
  exact ⟨rfl, rfl, rfl, rfl⟩
/-- `countDelays` distributes over trace concatenation. -/
theorem countDelays_append (a b : List RunEvent) :
    countDelays (a ++ b) = countDelays a + countDelays b :=
  List.countP_append _ _ _

/-- A summary event is not a pause. -/
theorem countDelays_summary (s f : Nat) :
    countDelays [RunEvent.summary s f] = 0 := rfl

/-- Behaviour of the orchestrator loop: the counters tally successes and
failures, exactly one pause follows each success, every pause is the
fixed 1000 ms one, and every document index in range is attempted. -/
theorem processLoop_spec (outcomes : List Bool) : ∀ i : Nat,
    (processLoop i outcomes).succ = outcomes.count true ∧
    (processLoop i outcomes).fail = outcomes.count false ∧
    countDelays (processLoop i outcomes).events = outcomes.count true ∧
    (∀ m, RunEvent.delayMs m ∈ (processLoop i outcomes).events → m = 1000) ∧
    (∀ j, i ≤ j → j < i + outcomes.length →
      RunEvent.attempt j ∈ (processLoop i outcomes).events) := by
  induction outcomes with
  | nil =>
    intro i
    refine ⟨rfl, rfl, rfl, ?_, ?_⟩
    · intro m hm; simp [processLoop] at hm
    · intro j h1 h2; simp [processLoop] at h2; omega
  | cons ok rest ih =>
    intro i
    obtain ⟨ih1, ih2, ih3, ih4, ih5⟩ := ih (i + 1)
    cases ok with
    | true =>
      have hdef : processLoop i (true :: rest) =
          ⟨RunEvent.attempt i :: RunEvent.delayMs 1000 ::
              (processLoop (i + 1) rest).events,
            (processLoop (i + 1) rest).succ + 1,
            (processLoop (i + 1) rest).fail⟩ := rfl
      rw [hdef]
      refine ⟨?_, ?_, ?_, ?_, ?_⟩
      · show (processLoop (i + 1) rest).succ + 1 = _
        rw [ih1]; simp [List.count_cons]
      · show (processLoop (i + 1) rest).fail = _
        rw [ih2]; simp [List.count_cons]
      · show countDelays (RunEvent.attempt i :: RunEvent.delayMs 1000 ::
            (processLoop (i + 1) rest).events) = _
        simp only [countDelays, List.countP_cons] at ih3 ⊢
        simp [List.count_cons]
        omega
      · intro m hm
        simp only [List.mem_cons] at hm
        rcases hm with h1 | h1 | h1
        · exact absurd h1 (by simp)
        · simpa using h1
        · exact ih4 m h1
      · intro j hj1 hj2
        simp only [List.mem_cons]
        by_cases hji : j = i
        · exact Or.inl (by rw [hji])
        · have hge : i + 1 ≤ j := by omega
          have hlt : j < (i + 1) + rest.length := by
            simp only [List.length_cons] at hj2; omega
          exact Or.inr (Or.inr (ih5 j hge hlt))
    | false =>
      have hdef : processLoop i (false :: rest) =
          ⟨RunEvent.attempt i :: (processLoop (i + 1) rest).events,
            (processLoop (i + 1) rest).succ,
            (processLoop (i + 1) rest).fail + 1⟩ := rfl
      rw [hdef]
      refine ⟨?_, ?_, ?_, ?_, ?_⟩
      · show (processLoop (i + 1) rest).succ = _
        rw [ih1]; simp [List.count_cons]
      · show (processLoop (i + 1) rest).fail + 1 = _
        rw [ih2]; simp [List.count_cons]
      · show countDelays (RunEvent.attempt i ::
            (processLoop (i + 1) rest).events) = _
        simp only [countDelays, List.countP_cons] at ih3 ⊢
        simp [List.count_cons]
        omega
      · intro m hm
        simp only [List.mem_cons] at hm
        rcases hm with h1 | h1
        · exact absurd h1 (by simp)
        · exact ih4 m h1
      · intro j hj1 hj2
        simp only [List.mem_cons]
        by_cases hji : j = i
        · exact Or.inl (by rw [hji])
        · have hge : i + 1 ≤ j := by omega
          have hlt : j < (i + 1) + rest.length := by
            simp only [List.length_cons] at hj2; omega
          exact Or.inr (ih5 j hge hlt)

/-- On a non-empty document list, the run reduces to the loop followed by
the summary event. -/
theorem downloadAllDocuments_cons (outcomes : List Bool)
    (h : outcomes.isEmpty = false) :
    downloadAllDocuments outcomes =
      ⟨(processLoop 1 outcomes).events ++
          [RunEvent.summary (processLoop 1 outcomes).succ
            (processLoop 1 outcomes).fail],
        (processLoop 1 outcomes).succ, (processLoop 1 outcomes).fail⟩ := by
  simp [downloadAllDocuments, h]

/-- A list's true and false counts add up to its length. -/
theorem count_true_add_count_false (l : List Bool) :
    l.count true + l.count false = l.length := by
  induction l with
  | nil => rfl
  | cons b rest ih => cases b <;> simp [List.count_cons] <;> omega

/-- Counterexample to claim C6 as stated: with two documents that both
fail, the trace contains zero pauses, not the at-least-one the claim
requires for N = 2 — the politeness delay is skipped on failures. -/
theorem c6_no_delay_on_failures :
    countDelays (downloadAllDocuments [false, false]).events = 0 ∧
    ¬ (2 - 1 ≤ countDelays (downloadAllDocuments [false, false]).events) := by
  decide

/-- Amended claim C6: the orchestrator pauses exactly once after each
successful document (failures skip the pause), and every pause has the
fixed, data-independent duration of 1000 ms. -/
theorem c6_politeness_delay (outcomes : List Bool) :
    countDelays (downloadAllDocuments outcomes).events =
      outcomes.count true ∧
    (∀ m, RunEvent.delayMs m ∈ (downloadAllDocuments outcomes).events →
      m = 1000) := by
  obtain ⟨h1, h2, h3, h4, h5⟩ := processLoop_spec outcomes 1
  by_cases hout : outcomes = []
  · subst hout
    refine ⟨by decide, ?_⟩
    intro m hm
    simp [downloadAllDocuments] at hm
  · have hfalse : outcomes.isEmpty = false := by
      cases outcomes with
      | nil => exact absurd rfl hout
      | cons a t => rfl
    rw [downloadAllDocuments_cons outcomes hfalse]
    constructor
    · show countDelays ((processLoop 1 outcomes).events ++
        [RunEvent.summary (processLoop 1 outcomes).succ
          (processLoop 1 outcomes).fail]) = _
      rw [countDelays_append, countDelays_summary, Nat.add_zero, h3]
    · intro m hm
      rcases List.mem_append.mp hm with h | h
      · exact h4 m h
      · simp at h

/-- Witness for C6: with one success and one failure the trace has
exactly one pause, and the pause found in it lasts 1000 ms. -/
theorem c6_politeness_witness :
    countDelays (downloadAllDocuments [true, false]).events =
      [true, false].count true ∧ 1000 = 1000 :=
  ⟨(c6_politeness_delay [true, false]).1,
    (c6_politeness_delay [true, false]).2 1000 (by decide)⟩

/-- Counterexample to claim C7 as stated: on the empty reference list the
code returns early with only the no-documents notice — no final summary
is produced. -/
theorem c7_no_summary_on_empty :
    hasSummary (downloadAllDocuments []).events = false := by decide

/-- Amended claim C7: for every NON-EMPTY list of document references,
per-document failures are caught and counted without aborting the batch
(every index is attempted), the success and failure counts add up to the
number of references, and the final summary with those counts is always
produced even when some or all documents failed. -/
theorem c7_batch_resilience (outcomes : List Bool) (h : outcomes ≠ []) :
    (downloadAllDocuments outcomes).succ +
        (downloadAllDocuments outcomes).fail = outcomes.length ∧
    (downloadAllDocuments outcomes).succ = outcomes.count true ∧
    (downloadAllDocuments outcomes).fail = outcomes.count false ∧
    RunEvent.summary (downloadAllDocuments outcomes).succ
        (downloadAllDocuments outcomes).fail ∈
      (downloadAllDocuments outcomes).events ∧
    (∀ i, 1 ≤ i → i ≤ outcomes.length →
      RunEvent.attempt i ∈ (downloadAllDocuments outcomes).events) := by
  have hfalse : outcomes.isEmpty = false := by
    cases outcomes with
    | nil => exact absurd rfl h
    | cons a t => rfl
  obtain ⟨h1, h2, h3, h4, h5⟩ := processLoop_spec outcomes 1
  rw [downloadAllDocuments_cons outcomes hfalse]
  refine ⟨?_, h1, h2, ?_, ?_⟩
  · show (processLoop 1 outcomes).succ + (processLoop 1 outcomes).fail = _
    rw [h1, h2]
    exact count_true_add_count_false outcomes
  · exact List.mem_append.mpr (Or.inr (by simp))
  · intro i hi1 hi2
    exact List.mem_append.mpr (Or.inl (h5 i hi1 (by omega)))

/-- Witness for C7: a batch in which all documents failed still accounts
for every reference in its counters. -/
theorem c7_batch_witness :
    (downloadAllDocuments [false, false]).succ +
      (downloadAllDocuments [false, false]).fail = 2 := by
  have h := (c7_batch_resilience [false, false] (by decide)).1
  simpa using h
/-- Claim C8: negotiator output invariant — every emitted
DocumentReference comes from a table row whose ViewFiles href matched the
numeric docid pattern and carries exactly the extracted digits as its
docid; a row that produces no reference (no anchor or no numeric id) is
silently skipped, contributing nothing; and extraction is an append
homomorphism, so the emitted sequence preserves table-row order. -/
theorem c8_negotiator_invariant (rows : List TableRow) :
    (∀ ref ∈ extractDocLinks rows, ∃ r ∈ rows, mkDocRef r = some ref ∧
      ∃ href ds, r.viewFilesHref = some href ∧
        matchDocid href.data = some ds ∧ ref.docid = String.mk ds) ∧
    (∀ r, mkDocRef r = none →
      extractDocLinks (r :: rows) = extractDocLinks rows) ∧
    (∀ rows2, extractDocLinks (rows ++ rows2) =
      extractDocLinks rows ++ extractDocLinks rows2) := by
  refine ⟨?_, ?_, ?_⟩
  · intro ref hm
    rcases List.mem_filterMap.mp hm with ⟨r, hr, hmk⟩
    cases hvf : r.viewFilesHref with
    | none => simp [mkDocRef, hvf] at hmk
    | some href =>
      cases hmd : matchDocid href.data with
      | none => simp [mkDocRef, hvf, hmd] at hmk
      | some ds =>
        have hmk2 := hmk
        simp only [mkDocRef, hvf, hmd, Option.some.injEq] at hmk2
        refine ⟨r, hr, hmk, href, ds, hvf, hmd, ?_⟩
        rw [← hmk2]
  · intro r hnone
    simp [extractDocLinks, List.filterMap_cons, hnone]
  · intro rows2
    exact List.filterMap_append rows rows2 mkDocRef

/-- A sample ViewFiles table row whose href carries the numeric docid
`123`. -/
def rowWithDocid : TableRow :=
  ⟨some "ViewFiles.aspx?docid=123&x=1", ["1", " Site Plan "]⟩

/-- A sample table row whose href has no numeric docid. -/
def rowNoDocid : TableRow :=
  ⟨some "ViewFiles.aspx?nodocid", ["1", "Bad"]⟩

/-- Witness for C8: a malformed row (href without a numeric id) is
silently dropped from the extraction. -/
theorem c8_negotiator_witness :
    extractDocLinks [rowNoDocid, rowWithDocid] =
      extractDocLinks [rowWithDocid] :=
  (c8_negotiator_invariant [rowWithDocid]).2.1 rowNoDocid (by decide)
